import Mathlib

/-!
Verification of the measurement and scheduling core of the `gpui-grid`
benchmark (`src/main.rs`): the rolling frame-rate estimator, the CSV
diagnostics sink, the environment-variable configuration overrides, the
grid layout / cell generation algorithm, the benchmark controller's
mutating operations, and the self-rescheduling per-frame callback loop.

Rust machine values are embedded as follows: `usize` as `ℕ` (with
`saturating_sub` as truncated `Nat` subtraction), `f32`/`f64` arithmetic
as exact `ℚ` arithmetic, `Instant` timestamps as `ℚ`, and float-to-integer
casts (`as u32`, `as usize`) as `Int.floor` followed by `Int.toNat`
(truncation toward zero on the non-negative values that arise here).
-/

namespace GpuiGrid

/-! ### Constants (src/main.rs, lines 73-79) -/

def DEFAULT_ROWS : ℕ := 50

def DEFAULT_CELL_SIZE : ℚ := 32

def DEFAULT_WIDTH : ℚ := 800

def DEFAULT_HEIGHT : ℚ := 600

def CELL_GAP : ℚ := 4

def GRID_PADDING : ℚ := 16

def FRAME_HISTORY : ℕ := 60

/-! ### FpsCounter (src/main.rs, lines 81-109)

`times` is the `VecDeque<Instant>`: front of the list = front of the
deque (oldest sample), `push_back` = append, `pop_front` = tail.
`Instant::now()` is an input of `record` here; `duration_since`
saturates at zero, hence the `max 0`. -/

structure FpsCounter where
  times : List ℚ
  fps : ℚ
deriving DecidableEq, Repr

def FpsCounter.new : FpsCounter :=
  { times := [], fps := 0 }

def FpsCounter.record (c : FpsCounter) (now : ℚ) : FpsCounter :=
  let times1 := c.times ++ [now]
  let times2 := if FRAME_HISTORY < times1.length then times1.tail else times1
  let fps :=
    if 2 ≤ times2.length then
      match times2.head? with
      | some oldest => ((times2.length - 1 : ℕ) : ℚ) / max 0 (now - oldest)
      | none => c.fps
    else c.fps
  { times := times2, fps := fps }

/-- A whole sequence of `record()` calls starting from `FpsCounter::new()`,
with the captured `Instant::now()` values given as the list `ts`. -/
def recordAll (ts : List ℚ) : FpsCounter :=
  ts.foldl FpsCounter.record FpsCounter.new

theorem recordAll_concat (ts : List ℚ) (t : ℚ) :
    recordAll (ts ++ [t]) = (recordAll ts).record t := by
  simp [recordAll, List.foldl_append]

theorem record_times (c : FpsCounter) (now : ℚ) :
    (c.record now).times =
      if FRAME_HISTORY < c.times.length + 1 then (c.times ++ [now]).tail
      else c.times ++ [now] := by
  simp [FpsCounter.record]

/-- The window after any call sequence is exactly the suffix of the last
(at most) 60 inserted samples, in insertion order. -/
theorem times_recordAll (ts : List ℚ) :
    (recordAll ts).times = ts.drop (ts.length - FRAME_HISTORY) := by
  induction ts using List.reverseRecOn with
  | nil => rfl
  | append_singleton ts t ih =>
    rw [recordAll_concat, record_times, ih]
    have hF : FRAME_HISTORY = 60 := rfl
    have hlen : (ts.drop (ts.length - FRAME_HISTORY)).length =
        ts.length - (ts.length - FRAME_HISTORY) := List.length_drop _ _
    by_cases h : FRAME_HISTORY ≤ ts.length
    · have hcond : FRAME_HISTORY < (ts.drop (ts.length - FRAME_HISTORY)).length + 1 := by
        rw [hlen]; omega
      rw [if_pos hcond]
      have hne : ts.drop (ts.length - FRAME_HISTORY) ≠ [] := by
        intro hnil
        have := congrArg List.length hnil
        simp [hlen] at this
        omega
      obtain ⟨a, rest, hrest⟩ := List.exists_cons_of_ne_nil hne
      have htail : (ts.drop (ts.length - FRAME_HISTORY) ++ [t]).tail =
          ts.drop (ts.length - FRAME_HISTORY + 1) ++ [t] := by
        rw [hrest]
        have : (a :: rest).tail = (ts.drop (ts.length - FRAME_HISTORY)).tail := by
          rw [hrest]
        simp only [List.cons_append, List.tail_cons]
        rw [show rest = (a :: rest).tail from rfl, ← hrest, List.tail_drop]
      rw [htail]
      have harith : (ts ++ [t]).length - FRAME_HISTORY = ts.length - FRAME_HISTORY + 1 := by
        have hl : (ts ++ [t]).length = ts.length + 1 := by simp
        omega
      rw [harith, List.drop_append_of_le_length (by omega)]
    · have hcond : ¬ FRAME_HISTORY < (ts.drop (ts.length - FRAME_HISTORY)).length + 1 := by
        rw [hlen]; omega
      rw [if_neg hcond]
      have h0 : ts.length - FRAME_HISTORY = 0 := by omega
      have h0' : (ts ++ [t]).length - FRAME_HISTORY = 0 := by
        have hl : (ts ++ [t]).length = ts.length + 1 := by simp
        omega
      rw [h0, h0', List.drop_zero, List.drop_zero]

theorem length_times_recordAll (ts : List ℚ) :
    (recordAll ts).times.length = min ts.length FRAME_HISTORY := by
  rw [times_recordAll, List.length_drop]
  omega

theorem getLast?_times_recordAll (ts : List ℚ) (h : 1 ≤ ts.length) :
    (recordAll ts).times.getLast? = ts.getLast? := by
  have hF : FRAME_HISTORY = 60 := rfl
  have hidx : ts.length - FRAME_HISTORY +
      (ts.length - (ts.length - FRAME_HISTORY) - 1) = ts.length - 1 := by omega
  rw [times_recordAll, List.getLast?_eq_getElem?, List.length_drop,
    List.getElem?_drop, hidx, ← List.getLast?_eq_getElem?]

theorem fps_recordAll_lt_two (ts : List ℚ) (h : ts.length < 2) :
    (recordAll ts).fps = 0 := by
  match ts with
  | [] => rfl
  | [t] =>
    simp [recordAll, FpsCounter.record, FpsCounter.new, FRAME_HISTORY]
  | _ :: _ :: _ =>
    simp only [List.length_cons] at h
    omega

theorem record_fps (c : FpsCounter) (now : ℚ) (h2 : 2 ≤ (c.record now).times.length)
    (tOld : ℚ) (hOld : (c.record now).times.head? = some tOld) :
    (c.record now).fps = (((c.record now).times.length - 1 : ℕ) : ℚ) / max 0 (now - tOld) := by
  simp only [FpsCounter.record] at h2 hOld ⊢
  rw [if_pos h2, hOld]

theorem fps_recordAll_formula (ts : List ℚ) (h2 : 2 ≤ ts.length) (tOld tNew : ℚ)
    (hOld : (recordAll ts).times.head? = some tOld)
    (hNew : ts.getLast? = some tNew) :
    (recordAll ts).fps =
      (((recordAll ts).times.length - 1 : ℕ) : ℚ) / max 0 (tNew - tOld) := by
  rcases List.eq_nil_or_concat ts with hnil | ⟨init, t, hts⟩
  · subst hnil; simp at h2
  · rw [List.concat_eq_append] at hts
    subst hts
    have hlast : (init ++ [t]).getLast? = some t := List.getLast?_concat init
    rw [hlast] at hNew
    have htN : tNew = t := (Option.some.inj hNew).symm
    subst htN
    rw [recordAll_concat] at hOld ⊢
    have hlen2 : 2 ≤ ((recordAll init).record tNew).times.length := by
      have := length_times_recordAll (init ++ [tNew])
      rw [recordAll_concat] at this
      rw [this]
      have hF : FRAME_HISTORY = 60 := rfl
      have hl : (init ++ [tNew]).length = init.length + 1 := by simp
      omega
    exact record_fps _ _ hlen2 _ hOld

/-- If `R` is pairwise on a list of length at least 2, it relates the head
to the last element. -/
theorem rel_head?_getLast? {R : ℚ → ℚ → Prop} {W : List ℚ} (hp : W.Pairwise R)
    (h2 : 2 ≤ W.length) {a b : ℚ} (ha : W.head? = some a) (hb : W.getLast? = some b) :
    R a b := by
  match W, hp with
  | [], _ => simp at h2
  | [x], _ => simp at h2
  | x :: y :: rest, hp =>
    have hax : a = x := by
      simp only [List.head?_cons] at ha
      exact (Option.some.inj ha).symm
    have hmem : b ∈ y :: rest := by
      have hlast : (y :: rest).getLast? = some b := by
        rw [← hb, List.getLast?_cons_cons]
      have hbmem : b ∈ (y :: rest).getLast? := hlast
      obtain ⟨hne, heq⟩ := List.mem_getLast?_eq_getLast hbmem
      rw [heq]
      exact List.getLast_mem hne
    subst hax
    exact List.rel_of_pairwise_cons hp hmem

/-- C1: across every sequence of `record()` calls, the rolling window holds
at most 60 samples, and its contents are exactly the most recently inserted
samples in insertion order (oldest evicted first): after `k` calls the
window is the length-`min k 60` suffix of the inserted timestamps, so for
`k ≥ 61` it is exactly the 60 most recent ones. -/
theorem C1_window_bounded_fifo (ts : List ℚ) :
    (recordAll ts).times = ts.drop (ts.length - FRAME_HISTORY) ∧
    (recordAll ts).times.length = min ts.length FRAME_HISTORY ∧
    (recordAll ts).times.length ≤ 60 := by
  refine ⟨times_recordAll ts, length_times_recordAll ts, ?_⟩
  rw [length_times_recordAll]
  have hF : FRAME_HISTORY = 60 := rfl
  omega

/-- C2: with non-decreasing sample times, the rate is exactly 0 while fewer
than 2 samples have been recorded; after a `record()` call that leaves the
window with `n ≥ 2` samples, oldest `tOld` and newest `tNew`, the rate is
`(n - 1) / (tNew - tOld)`; in particular with exactly two samples at times
`t0 < t1` the rate is `1 / (t1 - t0)`. -/
theorem C2_rate_formula (ts : List ℚ) (hmono : List.Chain' (· ≤ ·) ts) :
    (ts.length < 2 → (recordAll ts).fps = 0) ∧
    (∀ tOld tNew, 2 ≤ (recordAll ts).times.length →
      (recordAll ts).times.head? = some tOld →
      (recordAll ts).times.getLast? = some tNew →
      (recordAll ts).fps =
        (((recordAll ts).times.length - 1 : ℕ) : ℚ) / (tNew - tOld)) ∧
    (∀ t0 t1, ts = [t0, t1] → t0 < t1 → (recordAll ts).fps = 1 / (t1 - t0)) := by
  have hmain : ∀ tOld tNew, 2 ≤ (recordAll ts).times.length →
      (recordAll ts).times.head? = some tOld →
      (recordAll ts).times.getLast? = some tNew →
      (recordAll ts).fps =
        (((recordAll ts).times.length - 1 : ℕ) : ℚ) / (tNew - tOld) := by
    intro tOld tNew h2 hOld hNew
    have hlen : (recordAll ts).times.length = min ts.length FRAME_HISTORY :=
      length_times_recordAll ts
    have hF : FRAME_HISTORY = 60 := rfl
    have hts2 : 2 ≤ ts.length := by omega
    have hNew' : ts.getLast? = some tNew := by
      rw [← getLast?_times_recordAll ts (by omega)]
      exact hNew
    have hpair : (recordAll ts).times.Pairwise (· ≤ ·) := by
      rw [times_recordAll]
      exact ((List.chain'_iff_pairwise).mp hmono).sublist (List.drop_sublist _ _)
    have hle : tOld ≤ tNew := rel_head?_getLast? hpair h2 hOld hNew
    have hmax : max 0 (tNew - tOld) = tNew - tOld :=
      max_eq_right (by linarith)
    rw [fps_recordAll_formula ts hts2 tOld tNew hOld hNew', hmax]
  refine ⟨fun h => fps_recordAll_lt_two ts h, hmain, ?_⟩
  intro t0 t1 hts hlt
  subst hts
  have h01 : (recordAll [t0, t1]).times = [t0, t1] := by
    rw [times_recordAll]; rfl
  have := hmain t0 t1 (by rw [h01]; rfl) (by rw [h01]; rfl) (by rw [h01]; rfl)
  rw [this, h01]
  norm_num

/-- Witness for C2 at the concrete call sequence with times 0 and 2. -/
theorem C2_rate_formula_witness :
    List.Chain' (· ≤ ·) [(0 : ℚ), 2] ∧ (recordAll [(0 : ℚ), 2]).fps = 1 / 2 := by
  have hchain : List.Chain' (· ≤ ·) [(0 : ℚ), 2] := by
    norm_num [List.chain'_cons, List.chain'_singleton]
  refine ⟨hchain, ?_⟩
  have h := (C2_rate_formula [(0 : ℚ), 2] hchain).2.2 0 2 rfl (by norm_num)
  norm_num at h
  exact h

/-- C3 counterexample: two `record()` calls with equal (hence
non-decreasing) timestamps leave the window with 2 samples — so the rate is
recomputed — yet the divisor `newest - oldest` is zero. The ≥2-sample guard
alone does not keep the divisor nonzero. -/
theorem C3_zero_divisor_counterexample :
    List.Chain' (· ≤ ·) [(0 : ℚ), 0] ∧
    (recordAll [(0 : ℚ), 0]).times = [0, 0] ∧
    2 ≤ (recordAll [(0 : ℚ), 0]).times.length ∧
    (recordAll [(0 : ℚ), 0]).times.getLastD 0 -
      (recordAll [(0 : ℚ), 0]).times.headD 0 = 0 := by
  have ht : (recordAll [(0 : ℚ), 0]).times = [0, 0] := by
    rw [times_recordAll]; rfl
  refine ⟨?_, ht, ?_, ?_⟩
  · norm_num [List.chain'_cons, List.chain'_singleton]
  · rw [ht]; rfl
  · rw [ht]; simp

/-- C3 amended: with non-decreasing sample times the rate estimate is never
negative; the ≥2-sample guard alone does not make the divisor nonzero
(see the counterexample), but under strictly increasing sample times the
divisor `tNew - tOld` is positive and the recomputed rate is positive. -/
theorem C3_rate_nonnegative_divisor_positive (ts : List ℚ) :
    (List.Chain' (· ≤ ·) ts → 0 ≤ (recordAll ts).fps) ∧
    (List.Chain' (· < ·) ts → ∀ tOld tNew,
      2 ≤ (recordAll ts).times.length →
      (recordAll ts).times.head? = some tOld →
      (recordAll ts).times.getLast? = some tNew →
      0 < tNew - tOld ∧ 0 < (recordAll ts).fps) := by
  constructor
  · intro hmono
    by_cases hlen : ts.length < 2
    · rw [fps_recordAll_lt_two ts hlen]
    · have hts2 : 2 ≤ ts.length := by omega
      have hne : (recordAll ts).times ≠ [] := by
        have := length_times_recordAll ts
        intro hnil
        rw [hnil] at this
        have hF : FRAME_HISTORY = 60 := rfl
        simp at this
        omega
      obtain ⟨tOld, hOld⟩ : ∃ a, (recordAll ts).times.head? = some a := by
        obtain ⟨a, rest, hcons⟩ := List.exists_cons_of_ne_nil hne
        exact ⟨a, by rw [hcons]; rfl⟩
      obtain ⟨tNew, hNew⟩ : ∃ b, ts.getLast? = some b := by
        rcases List.eq_nil_or_concat ts with hnil | ⟨init, t, hts⟩
        · subst hnil; simp at hts2
        · refine ⟨t, ?_⟩
          rw [hts, List.concat_eq_append]
          exact List.getLast?_concat init
      rw [fps_recordAll_formula ts hts2 tOld tNew hOld hNew]
      apply div_nonneg
      · exact Nat.cast_nonneg _
      · exact le_max_left _ _
  · intro hmono tOld tNew h2 hOld hNew
    have hlen : (recordAll ts).times.length = min ts.length FRAME_HISTORY :=
      length_times_recordAll ts
    have hF : FRAME_HISTORY = 60 := rfl
    have hts2 : 2 ≤ ts.length := by omega
    have hNew' : ts.getLast? = some tNew := by
      rw [← getLast?_times_recordAll ts (by omega)]
      exact hNew
    have hpair : (recordAll ts).times.Pairwise (· < ·) := by
      rw [times_recordAll]
      exact ((List.chain'_iff_pairwise).mp hmono).sublist (List.drop_sublist _ _)
    have hlt : tOld < tNew := rel_head?_getLast? hpair h2 hOld hNew
    have hpos : 0 < tNew - tOld := by linarith
    refine ⟨hpos, ?_⟩
    rw [fps_recordAll_formula ts hts2 tOld tNew hOld hNew',
      max_eq_right (le_of_lt hpos)]
    apply div_pos
    · have h1 : 1 ≤ (recordAll ts).times.length - 1 := by omega
      have : (1 : ℚ) ≤ (((recordAll ts).times.length - 1 : ℕ) : ℚ) := by
        exact_mod_cast h1
      linarith
    · exact hpos

/-- Witness for the amended C3 at the strictly increasing sequence 0, 1. -/
theorem C3_rate_positive_witness :
    0 ≤ (recordAll [(0 : ℚ), 1]).fps ∧ 0 < (recordAll [(0 : ℚ), 1]).fps := by
  have h01 : (recordAll [(0 : ℚ), 1]).times = [0, 1] := by
    rw [times_recordAll]; rfl
  have h := C3_rate_nonnegative_divisor_positive [(0 : ℚ), 1]
  have hc1 : List.Chain' (· ≤ ·) [(0 : ℚ), 1] := by
    norm_num [List.chain'_cons, List.chain'_singleton]
  have hc2 : List.Chain' (· < ·) [(0 : ℚ), 1] := by
    norm_num [List.chain'_cons, List.chain'_singleton]
  refine ⟨h.1 hc1, ?_⟩
  exact (h.2 hc2 0 1 (by rw [h01]; rfl) (by rw [h01]; rfl)
    (by rw [h01]; rfl)).2

/-! ### Environment-variable overrides (src/main.rs, lines 53-71)

`env::var(name)` is modelled by its result `lookup : Option String`
(`Err` for an unset or non-unicode variable becomes `none`). `f32`
parsing is host library behavior and is abstracted as a `parse`
parameter; `usize` parsing is modelled concretely by `parse_usize`. -/

def asciiLower (c : Char) : Char :=
  if 'A' ≤ c ∧ c ≤ 'Z' then Char.ofNat (c.toNat + 32) else c

def eq_ignore_ascii_case (a b : String) : Bool :=
  a.data.map asciiLower == b.data.map asciiLower

def env_bool (lookup : Option String) (default : Bool) : Bool :=
  match lookup with
  | some v => v == "1" || eq_ignore_ascii_case v "true"
  | none => default

/-- Rust's `str::parse::<usize>`: an optional leading `+`, then one or
more ASCII digits, failing on overflow past `usize::MAX = 2^64 - 1`. -/
def parse_usize (s : String) : Option ℕ :=
  let ds := match s.data with
    | '+' :: rest => rest
    | l => l
  if ds.isEmpty then none
  else if ds.all Char.isDigit then
    let n := ds.foldl (fun acc c => acc * 10 + (c.toNat - 48)) 0
    if n < 2 ^ 64 then some n else none
  else none

def env_usize (lookup : Option String) (default : ℕ) : ℕ :=
  (lookup.bind parse_usize).getD default

def env_f32 (parse : String → Option ℚ) (lookup : Option String) (default : ℚ) : ℚ :=
  (lookup.bind parse).getD default

/-! ### GridBench (src/main.rs, lines 203-245)

The `fps_view : Entity<FpsView>` field is a host-toolkit handle and is
not part of the configuration state modelled here. -/

structure GridBench where
  row_count : ℕ
  cell_size : ℚ
  enable_hover : Bool
  enable_click : Bool
  step_size : ℕ
deriving DecidableEq, Repr

def GridBench.new (envLookup : String → Option String)
    (parseF32 : String → Option ℚ) : GridBench :=
  { row_count := env_usize (envLookup "GRID_BENCH_ROWS") DEFAULT_ROWS
    cell_size := env_f32 parseF32 (envLookup "GRID_BENCH_CELL_SIZE") DEFAULT_CELL_SIZE
    enable_hover := env_bool (envLookup "GRID_BENCH_HOVER") true
    enable_click := env_bool (envLookup "GRID_BENCH_CLICK") true
    step_size := env_usize (envLookup "GRID_BENCH_STEP") 1 }

def GridBench.add_row (g : GridBench) : GridBench :=
  { g with row_count := g.row_count + g.step_size }

def GridBench.remove_row (g : GridBench) : GridBench :=
  { g with row_count := (g.row_count - g.step_size).max 1 }

def GridBench.increase_cell_size (g : GridBench) : GridBench :=
  { g with cell_size := min (g.cell_size + 4) 128 }

def GridBench.decrease_cell_size (g : GridBench) : GridBench :=
  { g with cell_size := max (g.cell_size - 4) 8 }

def GridBench.calculate_col_count (g : GridBench) (window_width : ℚ) : ℕ :=
  let available_width := window_width - GRID_PADDING * 2
  let cell_with_gap := g.cell_size + CELL_GAP
  (max ⌊(available_width + CELL_GAP) / cell_with_gap⌋ 1).toNat

/-- `calculate_col_count` with the source constants `CELL_GAP` and
`GRID_PADDING` generalized to parameters, for the claim's quantification
over gap and padding. -/
def col_count_with (cell_size window_width gap padding : ℚ) : ℕ :=
  let available_width := window_width - padding * 2
  let cell_with_gap := cell_size + gap
  (max ⌊(available_width + gap) / cell_with_gap⌋ 1).toNat

/-- Modelled from the spec's words: subtract `2 × padding` from the
viewport width, then `floor((available_width + gap) / (cell_size + gap))`
with a minimum of 1. -/
def col_count_spec (w s g p : ℚ) : ℕ :=
  (max ⌊((w - 2 * p) + g) / (s + g)⌋ 1).toNat

/-- The `GridBench` state with all compiled-in defaults (no environment
overrides). -/
def defaultBench : GridBench :=
  GridBench.new (fun _ => none) (fun _ => none)

/-- C4: the column count is `floor(((W - 2*P) + G) / (S + G))` with a
minimum of 1 (shown for the generalized gap/padding parameters and for
the source's fixed `G = 4`, `P = 16`), and in particular it is 21 for a
viewport 800 wide and 9 for a viewport 364 wide at cell size 32. -/
theorem C4_column_count (w s g p : ℚ) :
    col_count_with s w g p = col_count_spec w s g p ∧
    (∀ bench : GridBench, bench.calculate_col_count w =
      col_count_spec w bench.cell_size CELL_GAP GRID_PADDING) ∧
    defaultBench.calculate_col_count 800 = 21 ∧
    defaultBench.calculate_col_count 364 = 9 := by
  refine ⟨?_, ?_, ?_, ?_⟩
  · have harith : w - p * 2 + g = w - 2 * p + g := by ring
    simp only [col_count_with, col_count_spec, harith]
  · intro bench
    have harith : w - GRID_PADDING * 2 + CELL_GAP = w - 2 * GRID_PADDING + CELL_GAP := by
      ring
    simp only [GridBench.calculate_col_count, col_count_spec, harith]
  · have hcell : defaultBench.cell_size = 32 := rfl
    simp only [GridBench.calculate_col_count, hcell, CELL_GAP, GRID_PADDING]
    norm_num
    rfl
  · have hcell : defaultBench.cell_size = 32 := rfl
    simp only [GridBench.calculate_col_count, hcell, CELL_GAP, GRID_PADDING]
    norm_num
    rfl

/-! ### Cell generation (src/main.rs, lines 396-427 and 457-459)

The grid body maps over rows `0..row_count` and columns `0..col_count`,
row-major; `cell_num = row * col_count + col`; the hue passed to
`hsv_to_rgb` is `(cell_num as f32 / total_cells.max(1) as f32 * 360.0)
as u32`, i.e. the exact ratio scaled to degrees and truncated to an
integer. -/

def cellHue (cell_num total : ℕ) : ℕ :=
  (⌊((cell_num : ℚ) / ((total.max 1 : ℕ) : ℚ)) * 360⌋).toNat

structure Cell where
  row : ℕ
  col : ℕ
  cell_num : ℕ
  hue : ℕ
deriving DecidableEq, Repr

/-- The row-major cell matrix with an arbitrary per-index hue function
(used to factor the generation lemma over the hue computation). -/
def genWith (row_count col_count : ℕ) (g : ℕ → ℕ) : List Cell :=
  ((List.range row_count).map (fun row =>
    (List.range col_count).map (fun col =>
      { row := row, col := col, cell_num := row * col_count + col,
        hue := g (row * col_count + col) }))).flatten

/-- The cells produced by one `GridBench::render` pass for a given row and
column count. -/
def generateCells (row_count col_count : ℕ) : List Cell :=
  genWith row_count col_count (fun i => cellHue i (row_count * col_count))

theorem genWith_eq_map (R C : ℕ) (g : ℕ → ℕ) :
    genWith R C g = (List.range (R * C)).map
      (fun i => { row := i / C, col := i % C, cell_num := i, hue := g i }) := by
  rcases Nat.eq_zero_or_pos C with hC | hC
  · subst hC
    simp [genWith]
  · induction R with
    | zero => simp [genWith]
    | succ R ih =>
      have hstep : genWith (R + 1) C g =
          genWith R C g ++ (List.range C).map (fun col =>
            { row := R, col := col, cell_num := R * C + col,
              hue := g (R * C + col) }) := by
        simp [genWith, List.range_succ]
      rw [hstep, ih]
      have hmul : (R + 1) * C = R * C + C := by ring
      rw [hmul, List.range_add, List.map_append]
      congr 1
      rw [List.map_map]
      apply List.map_congr_left
      intro col hcol
      have hcol' : col < C := List.mem_range.mp hcol
      have hdiv : (col + R * C) / C = R := by
        rw [Nat.add_mul_div_right _ _ hC, Nat.div_eq_of_lt hcol', Nat.zero_add]
      have hmod : (col + R * C) % C = col := by
        rw [Nat.add_mul_mod_self_right, Nat.mod_eq_of_lt hcol']
      have hadd : R * C + col = col + R * C := Nat.add_comm _ _
      simp [Function.comp, hdiv, hmod, hadd]

theorem generateCells_eq_map (R C : ℕ) :
    generateCells R C = (List.range (R * C)).map
      (fun i =>
        { row := i / C, col := i % C, cell_num := i, hue := cellHue i (R * C) }) :=
  genWith_eq_map R C _

/-- C5 counterexample: in a 1-row, 7-column grid the cell with linear
index 1 carries hue 51 (the `as u32` truncation of `1/7 × 360`), which is
not equal to the claim's exact `(1/7) × 360` degrees. -/
theorem C5_hue_truncation_counterexample :
    ((generateCells 1 7).map Cell.hue)[1]? = some 51 ∧
    ((51 : ℚ) ≠ ((1 : ℚ) / 7) * 360) := by
  constructor
  · have h51 : cellHue 1 7 = 51 := by
      simp only [cellHue, Nat.max_eq_left (by norm_num : 1 ≤ 7)]
      norm_num
      rfl
    rw [generateCells_eq_map]
    simp [h51]
  · norm_num

/-- C5 amended: cells are produced in row-major order with linear index
`row * C + col`; each cell's hue is `(index / total) × 360` degrees
truncated to an integer (the `as u32` cast), with the total clamped to a
minimum of 1 in the denominator; two grids with the same total cell count
produce the same hue sequence; for a 2×3 grid the indices are 0..5 with
hue 0 at index 0 and hue 300 at index 5. -/
theorem C5_row_major_hue_sweep (R C : ℕ) :
    generateCells R C = (List.range (R * C)).map
      (fun i =>
        { row := i / C, col := i % C, cell_num := i, hue := cellHue i (R * C) }) ∧
    (∀ i total : ℕ, (cellHue i total : ℤ) =
      ⌊((i : ℚ) / ((total.max 1 : ℕ) : ℚ)) * 360⌋) ∧
    (∀ R' C' : ℕ, R * C = R' * C' →
      (generateCells R C).map Cell.hue = (generateCells R' C').map Cell.hue) ∧
    (generateCells 2 3).map Cell.cell_num = [0, 1, 2, 3, 4, 5] ∧
    cellHue 0 6 = 0 ∧ cellHue 5 6 = 300 := by
  refine ⟨generateCells_eq_map R C, ?_, ?_, ?_, ?_, ?_⟩
  · intro i total
    have hnn : (0 : ℚ) ≤ ((i : ℚ) / ((total.max 1 : ℕ) : ℚ)) * 360 := by
      apply mul_nonneg
      · apply div_nonneg (Nat.cast_nonneg _) (Nat.cast_nonneg _)
      · norm_num
    exact Int.toNat_of_nonneg (Int.floor_nonneg.mpr hnn)
  · intro R' C' htot
    rw [generateCells_eq_map, generateCells_eq_map, List.map_map, List.map_map,
      htot]
    simp [Function.comp]
  · rw [generateCells_eq_map, List.map_map]
    rfl
  · simp only [cellHue]
    norm_num
  · simp only [cellHue, Nat.max_eq_left (by norm_num : 1 ≤ 6)]
    norm_num
    rfl

/-- Witness for C5: two grids with total 6 cells (2×3 and 3×2) produce the
same hue sequence. -/
theorem C5_row_major_hue_sweep_witness :
    (generateCells 2 3).map Cell.hue = (generateCells 3 2).map Cell.hue :=
  (C5_row_major_hue_sweep 2 3).2.2.1 3 2 rfl

/-! ### Diagnostics sink (src/main.rs, lines 23-51)

`log_frame` writes to `frame_log.csv`: a `std::sync::Once` gate truncates
the file and writes the header row on the first call; every call then
opens the file in append mode and writes one data row with the 13
diagnostic fields. The file is modelled as the list of its rows; I/O
success is assumed (the code swallows write failures). -/

structure FrameDiagnostics where
  frame_number : ℕ
  paint_fibers : ℕ
  paint_replayed_subtrees : ℕ
  prepaint_fibers : ℕ
  prepaint_replayed_subtrees : ℕ
  mutated_pool_segments : ℕ
  total_pool_segments : ℕ
  hitboxes_in_snapshot : ℕ
  hitboxes_snapshot_rebuilt : ℕ
  estimated_instance_upload_bytes : ℕ
  quads : ℕ
  monochrome_sprites : ℕ
  polychrome_sprites : ℕ
deriving DecidableEq, Repr

def headerFields : List String :=
  ["frame", "paint_fibers", "paint_replayed", "prepaint_fibers",
   "prepaint_replayed", "mutated_segments", "total_segments", "hitboxes",
   "hitboxes_rebuilt", "upload_bytes", "quads", "mono_sprites",
   "poly_sprites"]

def rowFields (d : FrameDiagnostics) : List ℕ :=
  [d.frame_number, d.paint_fibers, d.paint_replayed_subtrees,
   d.prepaint_fibers, d.prepaint_replayed_subtrees, d.mutated_pool_segments,
   d.total_pool_segments, d.hitboxes_in_snapshot, d.hitboxes_snapshot_rebuilt,
   d.estimated_instance_upload_bytes, d.quads, d.monochrome_sprites,
   d.polychrome_sprites]

inductive CsvRow where
  | header (cols : List String)
  | data (vals : List ℕ)
deriving DecidableEq, Repr

def CsvRow.isHeader : CsvRow → Bool
  | .header _ => true
  | .data _ => false

structure SinkState where
  once_done : Bool
  file : List CsvRow
deriving DecidableEq, Repr

/-- The process-start state: the `Once` gate has not run and
`frame_log.csv` may hold arbitrary stale rows from a previous run. -/
def SinkState.init (prior : List CsvRow) : SinkState :=
  { once_done := false, file := prior }

def log_frame (st : SinkState) (d : FrameDiagnostics) : SinkState :=
  let st1 :=
    if st.once_done then st
    else { once_done := true, file := [CsvRow.header headerFields] }
  { st1 with file := st1.file ++ [CsvRow.data (rowFields d)] }

def emitAll (st : SinkState) (ds : List FrameDiagnostics) : SinkState :=
  ds.foldl log_frame st

theorem emitAll_of_once_done (st : SinkState) (hst : st.once_done = true)
    (ds : List FrameDiagnostics) :
    emitAll st ds =
      { once_done := true,
        file := st.file ++ ds.map (fun d => CsvRow.data (rowFields d)) } := by
  induction ds generalizing st with
  | nil =>
    simp only [emitAll, List.foldl_nil, List.map_nil, List.append_nil]
    cases st
    simp_all
  | cons d rest ih =>
    have hstep : emitAll st (d :: rest) = emitAll (log_frame st d) rest := rfl
    rw [hstep, ih (log_frame st d) (by simp [log_frame, hst])]
    simp [log_frame, hst]

/-- C6: starting from any process-start file contents, after `N ≥ 1` calls
to `log_frame` the file is exactly one header row followed by the `N`
data rows in emission order; the header appears exactly once, and every
data row carries the 13 fields in the fixed schema order. -/
theorem C6_header_once_schema (prior : List CsvRow)
    (ds : List FrameDiagnostics) (h : ds ≠ []) :
    (emitAll (SinkState.init prior) ds).file =
      CsvRow.header headerFields ::
        ds.map (fun d => CsvRow.data (rowFields d)) ∧
    ((emitAll (SinkState.init prior) ds).file.countP CsvRow.isHeader) = 1 ∧
    (emitAll (SinkState.init prior) ds).file.length = ds.length + 1 ∧
    (∀ d : FrameDiagnostics,
      rowFields d =
        [d.frame_number, d.paint_fibers, d.paint_replayed_subtrees,
         d.prepaint_fibers, d.prepaint_replayed_subtrees,
         d.mutated_pool_segments, d.total_pool_segments,
         d.hitboxes_in_snapshot, d.hitboxes_snapshot_rebuilt,
         d.estimated_instance_upload_bytes, d.quads, d.monochrome_sprites,
         d.polychrome_sprites] ∧
      (rowFields d).length = 13) := by
  obtain ⟨d0, rest, hds⟩ := List.exists_cons_of_ne_nil h
  subst hds
  have hfirst : log_frame (SinkState.init prior) d0 =
      { once_done := true,
        file := [CsvRow.header headerFields, CsvRow.data (rowFields d0)] } := by
    simp [log_frame, SinkState.init]
  have hfile : (emitAll (SinkState.init prior) (d0 :: rest)).file =
      CsvRow.header headerFields ::
        (d0 :: rest).map (fun d => CsvRow.data (rowFields d)) := by
    have hstep : emitAll (SinkState.init prior) (d0 :: rest) =
        emitAll (log_frame (SinkState.init prior) d0) rest := rfl
    rw [hstep, hfirst, emitAll_of_once_done _ rfl]
    simp
  refine ⟨hfile, ?_, ?_, fun d => ⟨rfl, rfl⟩⟩
  · rw [hfile]
    simp [List.countP_cons, CsvRow.isHeader]
  · rw [hfile]
    simp

/-- A sample diagnostics record used by the C6 witness. -/
def sampleDiag : FrameDiagnostics :=
  { frame_number := 1, paint_fibers := 2, paint_replayed_subtrees := 3,
    prepaint_fibers := 4, prepaint_replayed_subtrees := 5,
    mutated_pool_segments := 6, total_pool_segments := 7,
    hitboxes_in_snapshot := 8, hitboxes_snapshot_rebuilt := 9,
    estimated_instance_upload_bytes := 10, quads := 11,
    monochrome_sprites := 12, polychrome_sprites := 13 }

/-- Witness for C6: one emission onto a stale single-row file yields
exactly the header plus that one data row. -/
theorem C6_header_once_schema_witness :
    (emitAll (SinkState.init [CsvRow.data [99]]) [sampleDiag]).file =
      [CsvRow.header headerFields, CsvRow.data (rowFields sampleDiag)] := by
  have h := C6_header_once_schema [CsvRow.data [99]] [sampleDiag] (by simp)
  simpa using h.1

/-- C7 counterexample: the boolean override does not fall back to its
default on a malformed value — with default `true` and the set value
`"no"` (not a well-formed boolean), `env_bool` returns `false`, not the
default. -/
theorem C7_env_bool_counterexample :
    env_bool (some "no") true = false ∧ env_bool (some "no") true ≠ true := by
  constructor
  · rfl
  · intro hcontra
    have hfalse : env_bool (some "no") true = false := rfl
    rw [hfalse] at hcontra
    exact Bool.false_ne_true hcontra

/-- C7 amended: every override yields its compiled-in default when the
variable is unset, and the numeric overrides (`usize` and `f32`) also
yield the default when the set value fails to parse; the boolean override,
however, ignores its default whenever the variable is set: it yields
`true` exactly when the value is `"1"` or ASCII-case-insensitively
`"true"`, and `false` for every other (malformed) value. No case is an
error: all the override operations are total. -/
theorem C7_env_fallback (d : Bool) (n : ℕ) (q : ℚ) (v : String)
    (parse : String → Option ℚ) :
    env_bool none d = d ∧
    env_usize none n = n ∧
    env_f32 parse none q = q ∧
    (parse_usize v = none → env_usize (some v) n = n) ∧
    (parse v = none → env_f32 parse (some v) q = q) ∧
    (∀ d' : Bool, env_bool (some v) d = env_bool (some v) d') ∧
    (v ≠ "1" → eq_ignore_ascii_case v "true" = false →
      env_bool (some v) d = false) ∧
    (env_bool (some v) d = true ↔
      (v = "1" ∨ eq_ignore_ascii_case v "true" = true)) := by
  refine ⟨rfl, rfl, rfl, ?_, ?_, fun d' => rfl, ?_, ?_⟩
  · intro hp
    simp [env_usize, hp]
  · intro hp
    simp [env_f32, hp]
  · intro hv hcase
    have hbeq : (v == "1") = false := by
      simp [hv]
    simp [env_bool, hbeq, hcase]
  · simp [env_bool, Bool.or_eq_true, beq_iff_eq]

/-- Witness for C7 at the unset lookup, the unparsable value `"abc"`, and
the well-formed boolean values `"1"` and `"TRUE"`. -/
theorem C7_env_fallback_witness :
    env_usize none 50 = 50 ∧
    env_usize (some "abc") 50 = 50 ∧
    env_f32 (fun _ => none) (some "abc") 32 = 32 ∧
    env_bool (some "abc") true = false ∧
    env_bool (some "1") false = true ∧
    env_bool (some "TRUE") false = true := by
  have h := C7_env_fallback true 50 32 "abc" (fun _ => none)
  have h1 := C7_env_fallback false 50 32 "1" (fun _ => none)
  have h2 := C7_env_fallback false 50 32 "TRUE" (fun _ => none)
  refine ⟨h.2.1, h.2.2.2.1 (by decide), h.2.2.2.2.1 rfl,
    h.2.2.2.2.2.2.1 (by decide) (by decide), ?_, ?_⟩
  · exact h1.2.2.2.2.2.2.2.mpr (Or.inl rfl)
  · exact h2.2.2.2.2.2.2.2.mpr (Or.inr (by decide))

/-! ### Reachable configuration states (C8, C9) -/

inductive ConfigOp where
  | add_row
  | remove_row
  | increase_cell_size
  | decrease_cell_size
deriving DecidableEq, Repr

def applyOp (g : GridBench) : ConfigOp → GridBench
  | .add_row => g.add_row
  | .remove_row => g.remove_row
  | .increase_cell_size => g.increase_cell_size
  | .decrease_cell_size => g.decrease_cell_size

def applyOps (g : GridBench) (ops : List ConfigOp) : GridBench :=
  ops.foldl applyOp g

/-- The row-count and cell-size invariant asserted by C8. -/
def ConfigInv (g : GridBench) : Prop :=
  1 ≤ g.row_count ∧ 8 ≤ g.cell_size ∧ g.cell_size ≤ 128

/-- An environment in which only `GRID_BENCH_ROWS` is set, to `"0"`. -/
def envRowsZero : String → Option String :=
  fun name => if name == "GRID_BENCH_ROWS" then some "0" else none

/-- C8 counterexample: `"0"` parses as a valid `usize`, and `GridBench::new`
does not clamp it, so the initial (reachable, zero further operations)
state has row count 0, violating `row_count ≥ 1`. -/
theorem C8_unclamped_init_counterexample :
    (GridBench.new envRowsZero (fun _ => none)).row_count = 0 ∧
    ¬ ConfigInv (GridBench.new envRowsZero (fun _ => none)) := by
  have h0 : (GridBench.new envRowsZero (fun _ => none)).row_count = 0 := by
    decide
  refine ⟨h0, ?_⟩
  intro hinv
  obtain ⟨h1, -, -⟩ := hinv
  rw [h0] at h1
  omega

/-- C8 amended: the environment overrides are *not* clamped, so the
invariant can fail at initialization (see the counterexample); but the
default initial state (no overrides) satisfies `row_count ≥ 1` and
`cell_size ∈ [8, 128]`, and all four mutating operations preserve that
invariant, so it holds in every state reachable from a state satisfying
it. -/
theorem C8_invariant_preserved (g : GridBench) (ops : List ConfigOp) :
    (∀ parse : String → Option ℚ, ConfigInv (GridBench.new (fun _ => none) parse)) ∧
    (ConfigInv g → ConfigInv (applyOps g ops)) := by
  constructor
  · intro parse
    refine ⟨?_, ?_, ?_⟩
    · show 1 ≤ env_usize none DEFAULT_ROWS
      decide
    · show (8 : ℚ) ≤ env_f32 parse none DEFAULT_CELL_SIZE
      norm_num [env_f32, DEFAULT_CELL_SIZE]
    · show env_f32 parse none DEFAULT_CELL_SIZE ≤ (128 : ℚ)
      norm_num [env_f32, DEFAULT_CELL_SIZE]
  · intro hinv
    induction ops generalizing g with
    | nil => exact hinv
    | cons op rest ih =>
      have hstep : applyOps g (op :: rest) = applyOps (applyOp g op) rest := rfl
      rw [hstep]
      apply ih
      obtain ⟨hrow, hlo, hhi⟩ := hinv
      cases op with
      | add_row =>
        exact ⟨by simp [applyOp, GridBench.add_row]; omega, hlo, hhi⟩
      | remove_row =>
        refine ⟨?_, hlo, hhi⟩
        simp [applyOp, GridBench.remove_row]
      | increase_cell_size =>
        refine ⟨hrow, ?_, ?_⟩
        · simp only [applyOp, GridBench.increase_cell_size]
          apply le_min
          · linarith
          · norm_num
        · simp only [applyOp, GridBench.increase_cell_size]
          exact min_le_right _ _
      | decrease_cell_size =>
        refine ⟨hrow, ?_, ?_⟩
        · simp only [applyOp, GridBench.decrease_cell_size]
          exact le_max_right _ _
        · simp only [applyOp, GridBench.decrease_cell_size]
          apply max_le
          · linarith
          · norm_num

/-- Witness for C8: the invariant holds in the default state and is kept
by a concrete operation sequence. -/
theorem C8_invariant_preserved_witness :
    ConfigInv (applyOps defaultBench
      [ConfigOp.add_row, ConfigOp.decrease_cell_size, ConfigOp.remove_row]) := by
  have hd : ConfigInv defaultBench := by
    refine ⟨?_, ?_, ?_⟩
    · show 1 ≤ env_usize none DEFAULT_ROWS
      decide
    · show (8 : ℚ) ≤ env_f32 (fun _ => none) none DEFAULT_CELL_SIZE
      norm_num [env_f32, DEFAULT_CELL_SIZE]
    · show env_f32 (fun _ => none) none DEFAULT_CELL_SIZE ≤ (128 : ℚ)
      norm_num [env_f32, DEFAULT_CELL_SIZE]
  exact (C8_invariant_preserved defaultBench
    [ConfigOp.add_row, ConfigOp.decrease_cell_size, ConfigOp.remove_row]).2 hd

/-- C9: from any state with `row_count ≥ 1`, `add_row()` then
`remove_row()` restores the original row count (the clamped floor at 1
coincides with the original value when it is 1); `remove_row()` always
yields `max(1, row_count - step_size)` (saturating subtraction) and
`add_row()` yields `row_count + step_size` with no upper bound. -/
theorem C9_add_remove_row (g : GridBench) (h : 1 ≤ g.row_count) :
    (g.add_row.remove_row).row_count = g.row_count ∧
    g.remove_row.row_count = max 1 (g.row_count - g.step_size) ∧
    g.add_row.row_count = g.row_count + g.step_size := by
  refine ⟨?_, ?_, rfl⟩
  · simp only [GridBench.add_row, GridBench.remove_row, Nat.add_sub_cancel]
    exact Nat.max_eq_left h
  · simp only [GridBench.remove_row]
    exact Nat.max_comm _ _

/-- Witness for C9 at the default state (row count 50, step size 1). -/
theorem C9_add_remove_row_witness :
    (defaultBench.add_row.remove_row).row_count = defaultBench.row_count ∧
    defaultBench.add_row.row_count = 51 := by
  have h := C9_add_remove_row defaultBench (by decide)
  refine ⟨h.1, ?_⟩
  rw [h.2.2]
  decide

/-! ### Frame scheduling loop (src/main.rs, lines 124-135)

`schedule_frame_callback` registers a closure with the host's
`on_next_frame`. On each frame the closure tries to upgrade the weak
handle to the `FpsView`: on success it records one frame sample, calls
`cx.notify()`, and re-registers itself for the next frame; on failure it
does nothing, so the chain terminates silently. The host's scheduler is
modelled as the step function `frameLoop`: `aliveAt n` is whether the
weak handle upgrades during the frame-`n` invocation and `times n` is the
timestamp captured by that invocation; `registered` is whether a callback
registration exists for the current frame. -/

structure FpsView where
  render_fps : FpsCounter
  frame_fps : FpsCounter
deriving DecidableEq, Repr

def FpsView.new : FpsView :=
  { render_fps := FpsCounter.new, frame_fps := FpsCounter.new }

structure LoopState where
  registered : Bool
  view : FpsView
  records : ℕ
  notifies : ℕ
deriving DecidableEq, Repr

def frameLoop (aliveAt : ℕ → Bool) (times : ℕ → ℚ) : ℕ → LoopState
  | 0 =>
    { registered := true, view := FpsView.new, records := 0, notifies := 0 }
  | n + 1 =>
    let s := frameLoop aliveAt times n
    if s.registered then
      if aliveAt n then
        { registered := true,
          view := { s.view with frame_fps := s.view.frame_fps.record (times n) },
          records := s.records + 1,
          notifies := s.notifies + 1 }
      else { s with registered := false }
    else s

theorem frameLoop_dead (aliveAt : ℕ → Bool) (times : ℕ → ℚ) (n : ℕ)
    (h : (frameLoop aliveAt times n).registered = false) :
    ∀ m, n ≤ m → frameLoop aliveAt times m = frameLoop aliveAt times n := by
  intro m hm
  induction m with
  | zero =>
    have hn : n = 0 := Nat.le_zero.mp hm
    rw [hn]
  | succ m ih =>
    rcases Nat.lt_or_ge n (m + 1) with h1 | h2
    · have heq := ih (by omega)
      show (let s := frameLoop aliveAt times m
        if s.registered then
          if aliveAt m then
            { registered := true,
              view := { s.view with
                frame_fps := s.view.frame_fps.record (times m) },
              records := s.records + 1,
              notifies := s.notifies + 1 }
          else { s with registered := false }
        else s) = frameLoop aliveAt times n
      simp only [heq, h, Bool.false_eq_true, if_false]
    · have hn : n = m + 1 := by omega
      rw [hn]

/-- C10: a callback registration for frame `n+1` exists exactly when a
registration existed for frame `n` and the owner's weak handle upgraded
during the frame-`n` invocation; a live invocation records exactly one
frame sample, signals a re-render, and re-registers; a failed upgrade
leaves the owner state untouched, records nothing, notifies nothing, and
never re-registers (the chain terminates silently and permanently). -/
theorem C10_frame_loop (aliveAt : ℕ → Bool) (times : ℕ → ℚ) (n : ℕ) :
    ((frameLoop aliveAt times (n + 1)).registered =
      ((frameLoop aliveAt times n).registered && aliveAt n)) ∧
    ((frameLoop aliveAt times n).registered = true → aliveAt n = true →
      (frameLoop aliveAt times (n + 1)).records =
        (frameLoop aliveAt times n).records + 1 ∧
      (frameLoop aliveAt times (n + 1)).notifies =
        (frameLoop aliveAt times n).notifies + 1 ∧
      (frameLoop aliveAt times (n + 1)).view.frame_fps =
        (frameLoop aliveAt times n).view.frame_fps.record (times n)) ∧
    ((frameLoop aliveAt times n).registered = true → aliveAt n = false →
      frameLoop aliveAt times (n + 1) =
        { frameLoop aliveAt times n with registered := false }) ∧
    ((frameLoop aliveAt times n).registered = false →
      ∀ m, n ≤ m → frameLoop aliveAt times m = frameLoop aliveAt times n) := by
  have hstep : frameLoop aliveAt times (n + 1) =
      (let s := frameLoop aliveAt times n
      if s.registered then
        if aliveAt n then
          { registered := true,
            view := { s.view with
              frame_fps := s.view.frame_fps.record (times n) },
            records := s.records + 1,
            notifies := s.notifies + 1 }
        else { s with registered := false }
      else s) := rfl
  refine ⟨?_, ?_, ?_, frameLoop_dead aliveAt times n⟩
  · rw [hstep]
    cases hreg : (frameLoop aliveAt times n).registered <;>
      cases halive : aliveAt n <;> simp [hreg, halive]
  · intro hreg halive
    rw [hstep]
    simp [hreg, halive]
  · intro hreg halive
    rw [hstep]
    simp [hreg, halive]

/-- Witness for C10: with an owner alive for frames 0 and 1 only, the
frame-1 invocation records a sample and the frame-2 invocation finds the
owner gone and stops the chain. -/
theorem C10_frame_loop_witness :
    (frameLoop (fun k => decide (k < 2)) (fun _ => 0) 2).records =
      (frameLoop (fun k => decide (k < 2)) (fun _ => 0) 1).records + 1 ∧
    frameLoop (fun k => decide (k < 2)) (fun _ => 0) 3 =
      { frameLoop (fun k => decide (k < 2)) (fun _ => 0) 2 with
        registered := false } := by
  have h1 := C10_frame_loop (fun k => decide (k < 2)) (fun _ => 0) 1
  have h2 := C10_frame_loop (fun k => decide (k < 2)) (fun _ => 0) 2
  constructor
  · exact (h1.2.1 rfl rfl).1
  · exact h2.2.2.1 rfl rfl

end GpuiGrid
